import Mathlib

/-!
Verification of the core numeric pipeline of the `mdc` eye-tracking repository
(`gaze_estimator.py`, `calibration.py`).

Python floats are modelled by exact rationals (`ℚ`); quantities that the source
obtains through a square root (standard deviations, Euclidean norms) are
modelled in `ℝ` via `Real.sqrt` over the rational squared quantity, and every
comparison the source performs on such a quantity is re-expressed as an
equivalent square-root-free rational comparison, with a bridging lemma proving
the equivalence.  Library calls whose numeric outputs are not determined by the
code itself (sklearn cross-validation scores, fitted-model predictions, and the
possibility that a library call raises) are supplied as explicit oracle inputs.
-/

set_option autoImplicit false

namespace Mdc

/-! ## Camera intrinsics cache (`GazeEstimator._get_camera_matrix`)

The source stores a 3×3 matrix `[[f,0,cx],[0,f,cy],[0,0,1]]`; only the three
varying entries are modelled. -/

/-- The three varying entries of the intrinsic matrix built by
`_get_camera_matrix`: `focal = frame_width`, `cx = frame_width/2`,
`cy = frame_height/2` (the other entries are the constants 0 and 1). -/
structure CameraMatrix where
  focal : ℚ
  cx : ℚ
  cy : ℚ
deriving DecidableEq, Repr

/-- `focal_length = frame_width; center = (frame_width/2, frame_height/2)`. -/
def buildCameraMatrix (w h : ℚ) : CameraMatrix :=
  { focal := w, cx := w / 2, cy := h / 2 }

/-- `_get_camera_matrix`: rebuild the cached matrix iff the cache is `None` or
the cached `[0,2]` entry (`cx`) differs from `frame_width / 2`; return the
matrix used together with the updated cache.  The Python mutates
`self._camera_matrix`; here the cache is passed and returned explicitly. -/
def getCameraMatrix (cache : Option CameraMatrix) (w h : ℚ) :
    CameraMatrix × Option CameraMatrix :=
  match cache with
  | none => ((buildCameraMatrix w h), some (buildCameraMatrix w h))
  | some m =>
    if m.cx ≠ w / 2 then ((buildCameraMatrix w h), some (buildCameraMatrix w h))
    else (m, some m)

/-- The cache contents after `process_frame` has run on frames with the given
dimension sequence (each `process_frame` calls `_get_camera_matrix` once). -/
def camCacheAfter (dims : List (ℚ × ℚ)) : Option CameraMatrix :=
  dims.foldl (fun cache wh => (getCameraMatrix cache wh.1 wh.2).2) none

/-- The camera matrix used in the head-pose solve of the next `process_frame`
call, on a frame of width `w` and height `h`, after frames `dims` have been
processed. -/
def usedCameraMatrix (dims : List (ℚ × ℚ)) (w h : ℚ) : CameraMatrix :=
  (getCameraMatrix (camCacheAfter dims) w h).1

/-! ## Model selection and training (`GazeEstimator.train_model`)

`train_model` mutates `self.model_x` / `self.model_y`.  The regression
objects themselves are opaque sklearn state; what the code determines is the
family chosen, whether each object has been fitted, and on which data.  The
numeric outputs of sklearn (cross-validation scores, predictions) and the
possibility that an sklearn call raises are oracle inputs (`TrainEnv`). -/

/-- A 6-dimensional feature vector
`(leftIrisNormX, leftIrisNormY, rightIrisNormX, rightIrisNormY, yaw, pitch)`. -/
abbrev Vec6 : Type := Fin 6 → ℚ

/-- The two candidate regression families of `train_model`. -/
inductive Family where
  /-- `Pipeline([PolynomialFeatures(degree=2, include_bias=False), Ridge(alpha=1.0)])` -/
  | ridge
  /-- `GaussianProcessRegressor(kernel=RBF(1.0)+WhiteKernel(1.0), n_restarts_optimizer=2)` -/
  | gp
deriving DecidableEq, Repr

/-- One axis regressor as held in `self.model_x` / `self.model_y`: a freshly
constructed (unfitted) object, or one fitted on the recorded data. -/
inductive AxisModel where
  | unfitted (fam : Family)
  | fitted (fam : Family) (X : List Vec6) (y : List ℚ)
deriving DecidableEq

/-- The estimator's mutable model fields (`self.model_x`, `self.model_y`);
both are `None` until the first training. -/
structure EstState where
  modelX : Option AxisModel
  modelY : Option AxisModel
deriving DecidableEq

/-- Oracle inputs for one `train_model` run: the averaged cross-validation
errors the sklearn calls would report, whether each unguarded/guarded library
call raises, and the fitted models' predictions on the training inputs. -/
structure TrainEnv where
  /-- `(ridge_scores_x.mean() + ridge_scores_y.mean()) / 2` when CV runs. -/
  cvRidge : ℚ
  /-- `(gp_scores_x.mean() + gp_scores_y.mean()) / 2` when GP CV runs. -/
  cvGp : ℚ
  /-- the (unguarded) ridge `cross_val_score` calls raise. -/
  ridgeCvRaises : Bool
  /-- something inside the GP `try` block raises (caught by `except`). -/
  gpCvRaises : Bool
  /-- the (unguarded) `self.model_x.fit(X, y_x)` raises. -/
  fitXRaises : Bool
  /-- the (unguarded) `self.model_y.fit(X, y_y)` raises. -/
  fitYRaises : Bool
  /-- `self.model_x.predict(X)` output. -/
  predsX : List ℚ
  /-- `self.model_y.predict(X)` output. -/
  predsY : List ℚ
deriving DecidableEq

/-- `n_splits = min(5, len(X))`. -/
def nSplits (n : ℕ) : ℕ := min 5 n

/-- A candidate family's averaged CV error: `some q` for a finite float value,
`none` for `float('inf')`. -/
def ErrVal : Type := Option ℚ

/-- Python `<` on the error values, where `none` stands for `float('inf')`:
`inf < x` is false for every float `x` (including `inf`). -/
def errLt : ErrVal → ErrVal → Bool
  | some a, some b => a < b
  | some _, none => true
  | none, _ => false

/-- `ridge_error`: the averaged ridge CV error, `inf` when `n_splits < 2`. -/
def ridgeErrVal (n : ℕ) (env : TrainEnv) : ErrVal :=
  if 2 ≤ nSplits n then some env.cvRidge else none

/-- `gp_error`: stays `inf` unless `len(X) ≤ 50`, the `try` body does not
raise, and `n_splits ≥ 2` (otherwise the assignment inside the `try` never
executes). -/
def gpErrVal (n : ℕ) (env : TrainEnv) : ErrVal :=
  if n ≤ 50 ∧ env.gpCvRaises = false ∧ 2 ≤ nSplits n then some env.cvGp else none

/-- `if gp_error < ridge_error:` pick GP, `else` pick ridge. -/
def selectFamily (n : ℕ) (env : TrainEnv) : Family :=
  if errLt (gpErrVal n env) (ridgeErrVal n env) then Family.gp else Family.ridge

/-- `np.mean(np.abs(pred - y))` for equal-length arrays of length `n`. -/
def mae (pred y : List ℚ) (n : ℕ) : ℚ :=
  (List.zipWith (fun a b => |a - b|) pred y).sum / (n : ℚ)

/-- `train_model`, as a state transformer.  The first component is the
estimator state when the call returns or when an exception escapes (Python
mutations persist across an uncaught exception); `Except.error ()` marks an
uncaught exception, `Except.ok` carries the returned `(err_x, err_y)`.
Execution order follows the source: ridge CV (unguarded), GP CV (guarded by
`try`), family selection, assignment of both fresh model objects, `fit` of
`model_x` then of `model_y` (both unguarded), then the in-sample diagnostics. -/
def train_model (st : EstState) (X : List Vec6) (yx yy : List ℚ) (env : TrainEnv) :
    EstState × Except Unit (ℚ × ℚ) :=
  let n := X.length
  if 2 ≤ nSplits n ∧ env.ridgeCvRaises = true then (st, Except.error ()) else
  let fam := selectFamily n env
  let st1 : EstState := ⟨some (AxisModel.unfitted fam), some (AxisModel.unfitted fam)⟩
  if env.fitXRaises then (st1, Except.error ()) else
  let st2 : EstState := ⟨some (AxisModel.fitted fam X yx), some (AxisModel.unfitted fam)⟩
  if env.fitYRaises then (st2, Except.error ()) else
  let st3 : EstState := ⟨some (AxisModel.fitted fam X yx), some (AxisModel.fitted fam X yy)⟩
  (st3, Except.ok (mae env.predsX yx n, mae env.predsY yy n))

/-- `GazeEstimator.predict`: `None` when either model field is `None`;
otherwise the fitted models' numeric output, an oracle `predf`. -/
def predict (st : EstState) (predf : Vec6 → ℚ × ℚ) (v : Vec6) : Option (ℚ × ℚ) :=
  match st.modelX, st.modelY with
  | some _, some _ => some (predf v)
  | _, _ => none

/-! ## Calibration grid (`generate_calibration_points`) -/

/-- The x coordinate of grid column `col`:
`margin_x + col * (screen_width - 2*margin_x) / (cols - 1)` with
`margin_x = screen_width * 0.05`. -/
def gridX (w : ℚ) (cols : ℕ) (col : ℕ) : ℚ :=
  w * (5 / 100) + (col : ℚ) * (w - 2 * (w * (5 / 100))) / ((cols : ℚ) - 1)

/-- The y coordinate of grid row `row`, analogously from `screen_height`. -/
def gridY (h : ℚ) (rows : ℕ) (row : ℕ) : ℚ :=
  h * (5 / 100) + (row : ℚ) * (h - 2 * (h * (5 / 100))) / ((rows : ℚ) - 1)

/-- `generate_calibration_points`: the row-major list of grid points
(`for row in range(rows): for col in range(cols): append (x, y)`). -/
def generate_calibration_points (w h : ℚ) (cols rows : ℕ) : List (ℚ × ℚ) :=
  (List.range rows).flatMap fun row =>
    (List.range cols).map fun col => (gridX w cols col, gridY h rows row)

/-! ## Outlier-robust sample aggregation
(`CalibrationController._finish_point_collection`, lines 427–441)

The source keeps buffered vectors whose robust score
`max_j |v_j - mean_j| / (std_j + 1e-8)` is `< 2.0`, where `std_j` is the
population standard deviation (`np.std`), a square root.  `robustScore` below
is the direct real-valued translation; since for `d ≥ 0`, `v ≥ 0` one has
`d / (Real.sqrt v + ε) < 2 ↔ (d - 2*ε < 0 ∨ (d - 2*ε)^2 < 4*v)`, the keep
test is computed by the equivalent square-root-free rational test
`scoreLtTwo` (equivalence: `scoreLtTwo_iff_robustScore_lt_two`). -/

/-- `1e-8`, the epsilon added to the standard deviation. -/
def eps : ℚ := 1 / 100000000

/-- Per-dimension mean over the buffer (`np.mean(features_array, axis=0)`). -/
def dimMean (buf : List Vec6) (j : Fin 6) : ℚ :=
  (buf.map fun v => v j).sum / (buf.length : ℚ)

/-- Per-dimension population variance over the buffer; `np.std` is its square
root. -/
def dimVar (buf : List Vec6) (j : Fin 6) : ℚ :=
  (buf.map fun v => (v j - dimMean buf j) ^ 2).sum / (buf.length : ℚ)

/-- The per-sample robust score
`np.max(np.abs(v - mean) / (np.std(...) + 1e-8))`: the maximum over the six
dimensions of the absolute deviation scaled by `std + 1e-8`. -/
noncomputable def robustScore (buf : List Vec6) (v : Vec6) : ℝ :=
  Finset.univ.sup' Finset.univ_nonempty fun j : Fin 6 =>
    |(v j : ℝ) - (dimMean buf j : ℝ)| / (Real.sqrt (dimVar buf j) + (eps : ℝ))

/-- The source's keep test `distances < 2.0`, in square-root-free rational
form (see the section comment; proved equivalent to `robustScore buf v < 2`
in `scoreLtTwo_iff_robustScore_lt_two`). -/
def scoreLtTwo (buf : List Vec6) (v : Vec6) : Bool :=
  decide (∀ j : Fin 6,
    |v j - dimMean buf j| - 2 * eps < 0 ∨
    (|v j - dimMean buf j| - 2 * eps) ^ 2 < 4 * dimVar buf j)

/-- The aggregation step of `_finish_point_collection`: `None` when fewer than
5 buffered vectors or fewer than 3 survivors of the outlier filter; otherwise
the elementwise mean of the survivors (the value appended to
`collected_features`). -/
def aggregate (buf : List Vec6) : Option Vec6 :=
  if 5 ≤ buf.length then
    if 3 ≤ (buf.filter (scoreLtTwo buf)).length then
      some fun j => ((buf.filter (scoreLtTwo buf)).map fun v => v j).sum /
        ((buf.filter (scoreLtTwo buf)).length : ℚ)
    else none
  else none

/-- Test fixture for the spec's single-outlier scenario: a 6-vector buffer of
five copies of `u` and one vector offset by `δ` on dimension `k` (placed
last; the aggregation is order-insensitive in which elements it retains). -/
def outlierBuf (u : Vec6) (k : Fin 6) (δ : ℚ) : List Vec6 :=
  List.replicate 5 u ++ [Function.update u k (u k + δ)]

/-! ## Iris normalization (`GazeEstimator._normalise_iris`)

The source computes `eye_width = np.linalg.norm(eye_right - eye_left)` (a
square root) and tests `eye_width < 1`; since the norm is nonnegative,
`‖u‖ < 1 ↔ ‖u‖² < 1` (lemma `norm2_lt_one_iff`), so the squared norm is
tested instead.  The subsequent divisions use only the squared norms, which
are rational. -/

/-- Componentwise difference of 2-vectors (`numpy` array subtraction). -/
def sub2 (a b : ℚ × ℚ) : ℚ × ℚ := (a.1 - b.1, a.2 - b.2)

/-- `np.dot` on 2-vectors. -/
def dot2 (a b : ℚ × ℚ) : ℚ := a.1 * b.1 + a.2 * b.2

/-- Squared Euclidean norm of a 2-vector. -/
def sqNorm2 (a : ℚ × ℚ) : ℚ := a.1 ^ 2 + a.2 ^ 2

/-- `np.linalg.norm` on a 2-vector. -/
noncomputable def norm2 (a : ℚ × ℚ) : ℝ := Real.sqrt (sqNorm2 a)

/-- `np.clip(x, 0, 1)`. -/
def clip01 (x : ℚ) : ℚ := min (max x 0) 1

/-- `_normalise_iris(iris_center, eye_left, eye_right, eye_top, eye_bottom)`:
the neutral value `(0.5, 0.5)` when `eye_width < 1 or eye_height < 1`
(tested via squared norms, see the section comment); otherwise the clamped
projections of `iris_center - eye_left` onto the eye axes, each divided by
the squared axis length. -/
def normalise_iris (iris_center eye_left eye_right eye_top eye_bottom : ℚ × ℚ) :
    ℚ × ℚ :=
  let wSq := sqNorm2 (sub2 eye_right eye_left)
  let hSq := sqNorm2 (sub2 eye_bottom eye_top)
  if wSq < 1 ∨ hSq < 1 then (1 / 2, 1 / 2)
  else
    let eye_horizontal := sub2 eye_right eye_left
    let eye_vertical := sub2 eye_bottom eye_top
    let iris_relative := sub2 iris_center eye_left
    (clip01 (dot2 iris_relative eye_horizontal / wSq),
     clip01 (dot2 iris_relative eye_vertical / hSq))

/-! ## Session end (`CalibrationController._finish_calibration`)

The controller either calls `_show_failure` (fewer than 10 retained samples)
or trains and switches the view to the results screen.  The per-point
Euclidean residual and the derived mean-error statistics shown on that screen
involve a square root and are pure display data (no claim refers to their
values); the outcome below records the failure count respectively the
target/prediction pairs from which they are computed. -/

/-- The terminal outcome of `_finish_calibration`: the `_show_failure` screen
reporting how many samples were retained, or the results screen built from
the `(target_x, target_y, pred_x, pred_y)` pairs. -/
inductive SessionOutcome where
  | failure (retainedCount : ℕ)
  | success (resultPoints : List (ℚ × ℚ × ℚ × ℚ))
deriving DecidableEq

/-- `_finish_calibration`, given the estimator state, the accumulated
`collected_features` / `collected_screen_pts`, the sklearn oracle for
`train_model`, and the fitted models' prediction oracle `predf`.  Returns the
estimator state afterwards and either the outcome or an escaped exception
(from the unguarded sklearn calls inside `train_model`). -/
def finishCalibration (st : EstState) (feats : List Vec6)
    (pts : List (ℚ × ℚ)) (env : TrainEnv) (predf : Vec6 → ℚ × ℚ) :
    EstState × Except Unit SessionOutcome :=
  if feats.length < 10 then
    (st, Except.ok (SessionOutcome.failure feats.length))
  else
    match train_model st feats (pts.map Prod.fst) (pts.map Prod.snd) env with
    | (st1, Except.error ()) => (st1, Except.error ())
    | (st1, Except.ok _) =>
      let resultPoints := (feats.zip pts).filterMap fun fp =>
        match predict st1 predf fp.1 with
        | some p => some (fp.2.1, fp.2.2, p.1, p.2)
        | none => none
      (st1, Except.ok (SessionOutcome.success resultPoints))

/-! ## Theorems -/

/-- An empty cache always rebuilds. -/
theorem getCameraMatrix_none (w h : ℚ) :
    getCameraMatrix none w h = (buildCameraMatrix w h, some (buildCameraMatrix w h)) := rfl

/-- A cache hit (the cached `cx` equals `w / 2`) reuses the cached matrix. -/
theorem getCameraMatrix_some_hit (m : CameraMatrix) (w h : ℚ) (hcx : m.cx = w / 2) :
    getCameraMatrix (some m) w h = (m, some m) := by
  simp only [getCameraMatrix]
  rw [if_neg (not_not_intro hcx)]

/-- A cache miss (the cached `cx` differs from `w / 2`) rebuilds. -/
theorem getCameraMatrix_some_miss (m : CameraMatrix) (w h : ℚ) (hcx : m.cx ≠ w / 2) :
    getCameraMatrix (some m) w h = (buildCameraMatrix w h, some (buildCameraMatrix w h)) := by
  simp only [getCameraMatrix]
  rw [if_pos hcx]

/-- Any cache value ever stored is a matrix built from some frame dimensions. -/
theorem getCameraMatrix_cache_built (cache : Option CameraMatrix) (w h : ℚ)
    (hc : cache = none ∨ ∃ w0 h0, cache = some (buildCameraMatrix w0 h0)) :
    ∃ w1 h1, (getCameraMatrix cache w h).2 = some (buildCameraMatrix w1 h1) := by
  rcases hc with rfl | ⟨w0, h0, rfl⟩
  · exact ⟨w, h, rfl⟩
  · by_cases hcx : (buildCameraMatrix w0 h0).cx = w / 2
    · exact ⟨w0, h0, by rw [getCameraMatrix_some_hit _ _ _ hcx]⟩
    · exact ⟨w, h, by rw [getCameraMatrix_some_miss _ _ _ hcx]⟩

/-- After any sequence of frames, the cache is empty or holds a matrix built
from some frame dimensions. -/
theorem camCacheAfter_built (dims : List (ℚ × ℚ)) :
    camCacheAfter dims = none ∨
    ∃ w h, camCacheAfter dims = some (buildCameraMatrix w h) := by
  suffices h : ∀ cache, (cache = none ∨ ∃ w0 h0, cache = some (buildCameraMatrix w0 h0)) →
      (dims.foldl (fun c wh => (getCameraMatrix c wh.1 wh.2).2) cache = none ∨
       ∃ w0 h0, dims.foldl (fun c wh => (getCameraMatrix c wh.1 wh.2).2) cache =
         some (buildCameraMatrix w0 h0)) by
    exact h none (Or.inl rfl)
  induction dims with
  | nil => intro cache hc; simpa using hc
  | cons d rest ih =>
    intro cache hc
    simp only [List.foldl_cons]
    exact ih _ (Or.inr (getCameraMatrix_cache_built cache d.1 d.2 hc))

/-- C1 (counterexample): after a 640×480 frame, a 640×360 frame reuses the
cached matrix (same width), so the matrix used in its head-pose solve is not
the one built from the current frame's dimensions. -/
theorem camera_matrix_stale_on_height_change :
    usedCameraMatrix [(640, 480)] 640 360 ≠ buildCameraMatrix 640 360 := by
  have h1 : camCacheAfter [(640, 480)] = some (buildCameraMatrix 640 480) := rfl
  unfold usedCameraMatrix
  rw [h1, getCameraMatrix_some_hit _ _ _ rfl]
  norm_num [buildCameraMatrix, CameraMatrix.mk.injEq]

/-- C1 (amended): the camera matrix used in the head-pose solve of each
`process_frame` call always has focal length equal to the current frame width
and principal-point x at half the current width, and it equals the matrix
built from the current frame's full dimensions whenever no matrix is cached
or the cached principal-point x differs from half the current width; a call
whose width matches the cached one reuses the cached matrix even if the frame
height differs. -/
theorem camera_matrix_tracks_width (dims : List (ℚ × ℚ)) (w h : ℚ) :
    (usedCameraMatrix dims w h).focal = w ∧
    (usedCameraMatrix dims w h).cx = w / 2 ∧
    (camCacheAfter dims = none →
      usedCameraMatrix dims w h = buildCameraMatrix w h) ∧
    (∀ m, camCacheAfter dims = some m → m.cx ≠ w / 2 →
      usedCameraMatrix dims w h = buildCameraMatrix w h) := by
  unfold usedCameraMatrix
  rcases camCacheAfter_built dims with hc | ⟨w0, h0, hc⟩
  · rw [hc, getCameraMatrix_none]
    exact ⟨rfl, rfl, fun _ => rfl, fun m hm => nomatch hm⟩
  · rw [hc]
    by_cases hcx : (buildCameraMatrix w0 h0).cx = w / 2
    · rw [getCameraMatrix_some_hit _ _ h hcx]
      have hw : w0 = w := by
        have h2 : w0 / 2 = w / 2 := hcx
        linarith
      refine ⟨hw, hcx, ?_, ?_⟩
      · intro hnone
        exact nomatch hnone
      · intro m hm hmcx
        cases Option.some.inj hm
        exact absurd hcx hmcx
    · rw [getCameraMatrix_some_miss _ _ h hcx]
      exact ⟨rfl, rfl, fun _ => rfl, fun _ _ _ => rfl⟩

/-- C1 (witness): a width change (320→640) rebuilds the matrix from the
current dimensions; the focal length always equals the current width. -/
theorem camera_matrix_tracks_width_witness :
    usedCameraMatrix [(320, 240)] 640 360 = buildCameraMatrix 640 360 ∧
    (usedCameraMatrix [(640, 480)] 640 360).focal = 640 :=
  ⟨(camera_matrix_tracks_width [(320, 240)] 640 360).2.2.2
      (buildCameraMatrix 320 240) rfl (by norm_num [buildCameraMatrix]),
   (camera_matrix_tracks_width [(640, 480)] 640 360).1⟩

/-- The code's error comparison is irreflexive (in particular `inf < inf` is
false). -/
theorem errLt_irrefl (a : ErrVal) : errLt a a = false := by
  cases a with
  | none => rfl
  | some q => simp [errLt]

/-- C2 (counterexample): with a single sample (`k = min(5,1) = 1 < 2`) and the
Gaussian-process family available (sample count ≤ 50, no GP failure), the code
still selects the polynomial-ridge family, not the Gaussian process. -/
theorem skip_path_ignores_gp :
    nSplits 1 < 2 ∧
    (1 : ℕ) ≤ 50 ∧
    (TrainEnv.mk 0 0 false false false false [] []).gpCvRaises = false ∧
    selectFamily 1 (TrainEnv.mk 0 0 false false false false [] []) = Family.ridge ∧
    Family.ridge ≠ Family.gp := by
  refine ⟨by decide, by decide, rfl, rfl, by decide⟩

/-- C2 (amended): cross-validation uses `k = min(5, sampleCount)` folds, and
when `k < 2` cross-validation is skipped; both families' errors then remain
infinite and the strict comparison fails, so the polynomial-ridge family is
selected regardless of whether the Gaussian process was available. -/
theorem cross_validation_skip_selects_ridge (n : ℕ) (env : TrainEnv) :
    nSplits n = min 5 n ∧
    (nSplits n < 2 →
      ridgeErrVal n env = none ∧ gpErrVal n env = none ∧
      selectFamily n env = Family.ridge) := by
  refine ⟨rfl, fun hlt => ?_⟩
  have h2 : ¬ 2 ≤ nSplits n := by omega
  have hr : ridgeErrVal n env = none := by simp [ridgeErrVal, h2]
  have hg : gpErrVal n env = none := by simp [gpErrVal, h2]
  refine ⟨hr, hg, ?_⟩
  unfold selectFamily
  rw [hr, hg]
  rfl

/-- C2 (witness): with one sample, `k = 1 < 2` and ridge is selected. -/
theorem cross_validation_skip_selects_ridge_witness :
    nSplits 1 < 2 ∧
    selectFamily 1 (TrainEnv.mk 0 0 false false false false [] []) = Family.ridge :=
  ⟨by decide,
   ((cross_validation_skip_selects_ridge 1
      (TrainEnv.mk 0 0 false false false false [] [])).2 (by decide)).2.2⟩

/-- C3 (counterexample): when the final `self.model_x.fit` raises, the
exception escapes `train_model` (no explicit failure value) and the previously
trained models have already been overwritten by fresh unfitted ones. -/
theorem train_model_fit_exception_destroys_model :
    (train_model
        ⟨some (AxisModel.fitted Family.ridge [] []),
         some (AxisModel.fitted Family.ridge [] [])⟩
        [fun _ => 0] [0] [0] (TrainEnv.mk 0 0 false false true false [] [])).2
      = Except.error () ∧
    (train_model
        ⟨some (AxisModel.fitted Family.ridge [] []),
         some (AxisModel.fitted Family.ridge [] [])⟩
        [fun _ => 0] [0] [0] (TrainEnv.mk 0 0 false false true false [] [])).1
      ≠ ⟨some (AxisModel.fitted Family.ridge [] []),
         some (AxisModel.fitted Family.ridge [] [])⟩ := by
  constructor
  · rfl
  · have h : (train_model
        ⟨some (AxisModel.fitted Family.ridge [] []),
         some (AxisModel.fitted Family.ridge [] [])⟩
        [fun _ => 0] [0] [0] (TrainEnv.mk 0 0 false false true false [] [])).1
      = ⟨some (AxisModel.unfitted Family.ridge), some (AxisModel.unfitted Family.ridge)⟩ := rfl
    rw [h]
    simp

/-- C3 (amended): if neither the (unguarded) ridge cross-validation nor the
(unguarded) final fits raise, `train_model` returns normally with both axis
models replaced by the freshly fitted ones of the selected family; if the
ridge cross-validation raises, the exception escapes with the previous models
untouched; and if the final `model_x.fit` raises, the exception escapes with
both previous models already overwritten by fresh unfitted objects (the
replacement is not atomic with respect to fit failure, and no explicit
failure value is produced in either exceptional case). -/
theorem train_model_outcomes (st : EstState) (X : List Vec6) (yx yy : List ℚ)
    (env : TrainEnv) :
    (¬(2 ≤ nSplits X.length ∧ env.ridgeCvRaises = true) → env.fitXRaises = false →
      env.fitYRaises = false →
      train_model st X yx yy env =
        (⟨some (AxisModel.fitted (selectFamily X.length env) X yx),
          some (AxisModel.fitted (selectFamily X.length env) X yy)⟩,
         Except.ok (mae env.predsX yx X.length, mae env.predsY yy X.length))) ∧
    ((2 ≤ nSplits X.length ∧ env.ridgeCvRaises = true) →
      train_model st X yx yy env = (st, Except.error ())) ∧
    (¬(2 ≤ nSplits X.length ∧ env.ridgeCvRaises = true) → env.fitXRaises = true →
      train_model st X yx yy env =
        (⟨some (AxisModel.unfitted (selectFamily X.length env)),
          some (AxisModel.unfitted (selectFamily X.length env))⟩,
         Except.error ())) := by
  refine ⟨?_, ?_, ?_⟩ <;> intros <;> simp [train_model, *]

/-- C3 (witness): a clean run on one sample replaces both models with fitted
ridge models and returns the diagnostic pair. -/
theorem train_model_outcomes_witness :
    train_model ⟨none, none⟩ [fun _ => 0] [0] [0]
        (TrainEnv.mk 0 0 false false false false [0] [0]) =
      (⟨some (AxisModel.fitted
          (selectFamily (List.length ([(fun _ => 0 : Vec6)] : List Vec6))
            (TrainEnv.mk 0 0 false false false false [0] [0])) [fun _ => 0] [0]),
        some (AxisModel.fitted
          (selectFamily (List.length ([(fun _ => 0 : Vec6)] : List Vec6))
            (TrainEnv.mk 0 0 false false false false [0] [0])) [fun _ => 0] [0])⟩,
       Except.ok (mae [0] [0] (List.length ([(fun _ => 0 : Vec6)] : List Vec6)),
                  mae [0] [0] (List.length ([(fun _ => 0 : Vec6)] : List Vec6)))) :=
  (train_model_outcomes ⟨none, none⟩ [fun _ => 0] [0] [0]
      (TrainEnv.mk 0 0 false false false false [0] [0])).1 (by decide) rfl rfl

/-- C10: the family selection is exactly `gp_error < ridge_error`, so whenever
the Gaussian-process averaged CV error is not strictly below the ridge one —
including exact ties, GP skipped for `sampleCount > 50`, GP numerical failure,
and `k < 2` — the polynomial-ridge family is selected and (in a run where no
unguarded sklearn call raises) is the family fitted on the full sample set for
both axes. -/
theorem family_tie_prefers_ridge (n : ℕ) (env : TrainEnv) :
    (errLt (gpErrVal n env) (ridgeErrVal n env) = false →
      selectFamily n env = Family.ridge) ∧
    (errLt (gpErrVal n env) (ridgeErrVal n env) = false →
      ∀ (st : EstState) (X : List Vec6) (yx yy : List ℚ), X.length = n →
        env.ridgeCvRaises = false → env.fitXRaises = false → env.fitYRaises = false →
        (train_model st X yx yy env).1 =
          ⟨some (AxisModel.fitted Family.ridge X yx),
           some (AxisModel.fitted Family.ridge X yy)⟩) ∧
    (gpErrVal n env = ridgeErrVal n env →
      errLt (gpErrVal n env) (ridgeErrVal n env) = false) ∧
    (50 < n → errLt (gpErrVal n env) (ridgeErrVal n env) = false) ∧
    (env.gpCvRaises = true → errLt (gpErrVal n env) (ridgeErrVal n env) = false) ∧
    (nSplits n < 2 → errLt (gpErrVal n env) (ridgeErrVal n env) = false) := by
  have hsel : errLt (gpErrVal n env) (ridgeErrVal n env) = false →
      selectFamily n env = Family.ridge := by
    intro h
    simp [selectFamily, h]
  refine ⟨hsel, ?_, ?_, ?_, ?_, ?_⟩
  · intro h st X yx yy hlen hr hx hy
    have hsel2 : selectFamily X.length env = Family.ridge := by rw [hlen]; exact hsel h
    simp [train_model, hr, hx, hy, hsel2]
  · intro h
    rw [h]
    exact errLt_irrefl _
  · intro h
    have h50 : ¬ n ≤ 50 := by omega
    simp [gpErrVal, h50, errLt]
  · intro h
    simp [gpErrVal, h, errLt]
  · intro h
    have h2 : ¬ 2 ≤ nSplits n := by omega
    simp [gpErrVal, h2, errLt]

/-- C10 (witness): an exact tie (both CV errors 3 with 12 samples) selects
ridge. -/
theorem family_tie_prefers_ridge_witness :
    selectFamily 12 (TrainEnv.mk 3 3 false false false false [] []) = Family.ridge :=
  (family_tie_prefers_ridge 12 (TrainEnv.mk 3 3 false false false false [] [])).1
    ((family_tie_prefers_ridge 12 (TrainEnv.mk 3 3 false false false false [] [])).2.2.1 rfl)

/-- Length of a `flatMap` over `range` when every inner list has length `m`. -/
theorem flatMap_range_length (g : ℕ → List (ℚ × ℚ)) (m n : ℕ)
    (hlen : ∀ r, (g r).length = m) :
    ((List.range n).flatMap g).length = n * m := by
  rw [List.length_flatMap]
  have h1 : (List.map (List.length ∘ g) (List.range n)) = List.replicate n m := by
    rw [List.eq_replicate_iff]
    refine ⟨by simp, ?_⟩
    intro b hb
    simp only [List.mem_map, Function.comp_apply, List.mem_range] at hb
    obtain ⟨a, _, rfl⟩ := hb
    exact hlen a
  rw [h1, List.sum_replicate, smul_eq_mul]

/-- Row-major indexing into a `flatMap` over `range` with constant inner
length: entry `r * m + c` is entry `c` of block `r`. -/
theorem flatMap_range_getElem (g : ℕ → List (ℚ × ℚ)) (m : ℕ) (n : ℕ) :
    ∀ (_ : ∀ r, (g r).length = m) (r c : ℕ), r < n → c < m →
      ((List.range n).flatMap g)[r * m + c]? = (g r)[c]? := by
  induction n generalizing g with
  | zero =>
    intro _ r c hr _
    omega
  | succ n ih =>
    intro hlen r c hr hc
    rw [List.range_succ_eq_map]
    simp only [List.flatMap_cons, List.flatMap_map]
    cases r with
    | zero =>
      simp only [Nat.zero_mul, Nat.zero_add]
      rw [List.getElem?_append]
      rw [if_pos (by rw [hlen]; exact hc)]
    | succ r =>
      have heq : (r + 1) * m + c = (g 0).length + (r * m + c) := by rw [hlen]; ring
      rw [heq, List.getElem?_append_right (Nat.le_add_right _ _)]
      simp only [Nat.add_sub_cancel_left]
      exact ih (fun i => g (i + 1)) (fun i => hlen (i + 1)) r c (by omega) hc

/-- The per-column x coordinates are distinct when the screen width is
positive and there are at least two columns. -/
theorem gridX_injOn (w : ℚ) (cols : ℕ) (hw : 0 < w) (hc : 2 ≤ cols) :
    ∀ c1 c2 : ℕ, gridX w cols c1 = gridX w cols c2 → c1 = c2 := by
  intro c1 c2 heq
  have hcols : (2 : ℚ) ≤ (cols : ℚ) := by exact_mod_cast hc
  have hs : (w - 2 * (w * (5 / 100))) / ((cols : ℚ) - 1) ≠ 0 :=
    div_ne_zero (by linarith) (by linarith)
  unfold gridX at heq
  rw [mul_div_assoc, mul_div_assoc] at heq
  have h2 : (c1 : ℚ) = (c2 : ℚ) :=
    mul_right_cancel₀ hs (by linarith)
  exact_mod_cast h2

/-- The per-row y coordinates are distinct when the screen height is positive
and there are at least two rows. -/
theorem gridY_injOn (h : ℚ) (rows : ℕ) (hh : 0 < h) (hr : 2 ≤ rows) :
    ∀ r1 r2 : ℕ, gridY h rows r1 = gridY h rows r2 → r1 = r2 := by
  intro r1 r2 heq
  have hrows : (2 : ℚ) ≤ (rows : ℚ) := by exact_mod_cast hr
  have hs : (h - 2 * (h * (5 / 100))) / ((rows : ℚ) - 1) ≠ 0 :=
    div_ne_zero (by linarith) (by linarith)
  unfold gridY at heq
  rw [mul_div_assoc, mul_div_assoc] at heq
  have h2 : (r1 : ℚ) = (r2 : ℚ) :=
    mul_right_cancel₀ hs (by linarith)
  exact_mod_cast h2

/-- The generated grid has no duplicate points (positive screen dimensions,
at least a 2×2 grid). -/
theorem generate_calibration_points_nodup (w h : ℚ) (cols rows : ℕ)
    (hw : 0 < w) (hh : 0 < h) (hc : 2 ≤ cols) (hr : 2 ≤ rows) :
    (generate_calibration_points w h cols rows).Nodup := by
  unfold generate_calibration_points
  rw [List.nodup_flatMap]
  constructor
  · intro r _
    refine List.Nodup.map_on ?_ (List.nodup_range cols)
    intro c1 _ c2 _ heq
    exact gridX_injOn w cols hw hc c1 c2 (congrArg Prod.fst heq)
  · refine (List.pairwise_lt_range rows).imp ?_
    intro r1 r2 hlt p hp1 hp2
    simp only [List.mem_map, List.mem_range] at hp1 hp2
    obtain ⟨c1, _, rfl⟩ := hp1
    obtain ⟨c2, _, heq⟩ := hp2
    have h2 : r2 = r1 :=
      gridY_injOn h rows hh hr r2 r1 (congrArg Prod.snd heq)
    omega

/-- C7: grid generation with 5% margins yields exactly `cols × rows` points,
in row-major order (entry `r*cols + c` is column `c` of row `r`), with no
duplicates; in particular for width 1000, height 800, 5 columns and 4 rows it
yields 20 unique points, the first being `(50, 40)` and the last `(950, 760)`. -/
theorem calibration_grid (w h : ℚ) (cols rows : ℕ)
    (hw : 0 < w) (hh : 0 < h) (hc : 2 ≤ cols) (hr : 2 ≤ rows) :
    (generate_calibration_points w h cols rows).length = cols * rows ∧
    (generate_calibration_points w h cols rows).Nodup ∧
    (∀ r c, r < rows → c < cols →
      (generate_calibration_points w h cols rows)[r * cols + c]? =
        some (gridX w cols c, gridY h rows r)) ∧
    (generate_calibration_points 1000 800 5 4).length = 20 ∧
    (generate_calibration_points 1000 800 5 4).Nodup ∧
    (generate_calibration_points 1000 800 5 4).head? = some (50, 40) ∧
    (generate_calibration_points 1000 800 5 4).getLast? = some (950, 760) := by
  have hlen : ∀ (w h : ℚ) (cols rows : ℕ),
      (generate_calibration_points w h cols rows).length = cols * rows := by
    intro w h cols rows
    unfold generate_calibration_points
    rw [flatMap_range_length _ cols rows (fun r => by simp), Nat.mul_comm]
  have hidx : ∀ (w h : ℚ) (cols rows r c : ℕ), r < rows → c < cols →
      (generate_calibration_points w h cols rows)[r * cols + c]? =
        some (gridX w cols c, gridY h rows r) := by
    intro w h cols rows r c hrr hcc
    unfold generate_calibration_points
    rw [flatMap_range_getElem _ cols rows (fun i => by simp) r c hrr hcc]
    simp [List.getElem?_map, List.getElem?_range, hcc]
  refine ⟨hlen w h cols rows,
    generate_calibration_points_nodup w h cols rows hw hh hc hr,
    fun r c hrr hcc => hidx w h cols rows r c hrr hcc,
    hlen 1000 800 5 4,
    generate_calibration_points_nodup 1000 800 5 4
      (by norm_num) (by norm_num) (by norm_num) (by norm_num),
    ?_, ?_⟩
  · rw [List.head?_eq_getElem?]
    have h0 := hidx 1000 800 5 4 0 0 (by norm_num) (by norm_num)
    rw [show (0 : ℕ) * 5 + 0 = 0 from rfl] at h0
    rw [h0]
    norm_num [gridX, gridY]
  · rw [List.getLast?_eq_getElem?, hlen 1000 800 5 4]
    have h19 := hidx 1000 800 5 4 3 4 (by norm_num) (by norm_num)
    rw [show (3 : ℕ) * 5 + 4 = 19 from rfl] at h19
    rw [show (5 * 4 - 1 : ℕ) = 19 from rfl, h19]
    norm_num [gridX, gridY]

/-- C7 (witness): the concrete 1000×800, 5×4 grid facts. -/
theorem calibration_grid_witness :
    (generate_calibration_points 1000 800 5 4).length = 20 ∧
    (generate_calibration_points 1000 800 5 4).Nodup ∧
    (generate_calibration_points 1000 800 5 4).head? = some (50, 40) :=
  ⟨(calibration_grid 1000 800 5 4 (by norm_num) (by norm_num) (by norm_num)
      (by norm_num)).2.2.2.1,
   (calibration_grid 1000 800 5 4 (by norm_num) (by norm_num) (by norm_num)
      (by norm_num)).2.2.2.2.1,
   (calibration_grid 1000 800 5 4 (by norm_num) (by norm_num) (by norm_num)
      (by norm_num)).2.2.2.2.2.1⟩

/-- Square-root-free form of the scaled-deviation test: for `0 ≤ d`, `0 ≤ v`,
`0 < ε`, `d / (√v + ε) < 2` iff `d - 2ε < 0` or `(d - 2ε)² < 4v`. -/
theorem lt_two_mul_sqrt_add_eps_iff (d v ε : ℝ) (hv : 0 ≤ v)
    (hε : 0 < ε) :
    d / (Real.sqrt v + ε) < 2 ↔ (d - 2 * ε < 0 ∨ (d - 2 * ε) ^ 2 < 4 * v) := by
  have hs : 0 ≤ Real.sqrt v := Real.sqrt_nonneg v
  have hsq : Real.sqrt v ^ 2 = v := Real.sq_sqrt hv
  have hpos : 0 < Real.sqrt v + ε := by linarith
  rw [div_lt_iff₀ hpos]
  constructor
  · intro hlt
    by_cases ha : d - 2 * ε < 0
    · exact Or.inl ha
    · push_neg at ha
      right
      nlinarith [hlt, ha, hs, hsq]
  · intro hor
    rcases hor with ha | ha
    · linarith
    · by_cases hb : d - 2 * ε < 0
      · linarith
      · push_neg at hb
        nlinarith [ha, hb, hs, hsq]

/-- Per-dimension variances are nonnegative. -/
theorem dimVar_nonneg (buf : List Vec6) (j : Fin 6) : 0 ≤ dimVar buf j := by
  unfold dimVar
  apply div_nonneg
  · apply List.sum_nonneg
    intro x hx
    simp only [List.mem_map] at hx
    obtain ⟨v, _, rfl⟩ := hx
    positivity
  · positivity

/-- The computable keep test agrees with the source's real-valued robust
score: `scoreLtTwo buf v` holds iff `robustScore buf v < 2`. -/
theorem scoreLtTwo_iff (buf : List Vec6) (v : Vec6) :
    scoreLtTwo buf v = true ↔ robustScore buf v < 2 := by
  unfold scoreLtTwo robustScore
  simp only [decide_eq_true_eq]
  rw [Finset.sup'_lt_iff]
  simp only [Finset.mem_univ, forall_const]
  apply forall_congr'
  intro j
  have key := lt_two_mul_sqrt_add_eps_iff (|(v j : ℝ) - (dimMean buf j : ℝ)|)
    ((dimVar buf j : ℝ)) ((eps : ℚ) : ℝ)
    (by exact_mod_cast dimVar_nonneg buf j) (by norm_num [eps])
  rw [key]
  constructor
  · intro h
    rcases h with h | h
    · left
      exact_mod_cast h
    · right
      exact_mod_cast h
  · intro h
    rcases h with h | h
    · left
      exact_mod_cast h
    · right
      exact_mod_cast h

/-- C4: aggregation returns `none` for buffers of fewer than 5 vectors, and
for buffers where fewer than 3 vectors have robust score strictly below 2.0
(the retained set is exactly the vectors with `robustScore < 2`, boundary-equal
vectors being dropped); otherwise it returns the elementwise mean of exactly
the retained vectors. -/
theorem aggregate_spec (buf : List Vec6) :
    (∀ v, scoreLtTwo buf v = true ↔ robustScore buf v < 2) ∧
    (buf.length < 5 → aggregate buf = none) ∧
    (5 ≤ buf.length → (buf.filter (scoreLtTwo buf)).length < 3 →
      aggregate buf = none) ∧
    (5 ≤ buf.length → 3 ≤ (buf.filter (scoreLtTwo buf)).length →
      aggregate buf = some fun j =>
        ((buf.filter (scoreLtTwo buf)).map fun v => v j).sum /
          ((buf.filter (scoreLtTwo buf)).length : ℚ)) := by
  refine ⟨fun v => scoreLtTwo_iff buf v, ?_, ?_, ?_⟩
  · intro h5
    unfold aggregate
    rw [if_neg (by omega)]
  · intro h5 h3
    unfold aggregate
    rw [if_pos h5, if_neg (by omega)]
  · intro h5 h3
    unfold aggregate
    rw [if_pos h5, if_pos h3]

/-- C4 (witness): a 4-vector buffer aggregates to `none`. -/
theorem aggregate_spec_witness :
    aggregate [(fun _ => 0 : Vec6), fun _ => 0, fun _ => 0, fun _ => 0] = none :=
  (aggregate_spec [(fun _ => 0 : Vec6), fun _ => 0, fun _ => 0, fun _ => 0]).2.1
    (by simp)

/-- Componentwise values of the single-outlier buffer's last element. -/
theorem outlierBuf_last_apply (u : Vec6) (k : Fin 6) (δ : ℚ) (j : Fin 6) :
    Function.update u k (u k + δ) j = if j = k then u k + δ else u j :=
  Function.update_apply u k (u k + δ) j

/-- Per-dimension sums over the single-outlier buffer. -/
theorem outlierBuf_sum (u : Vec6) (k : Fin 6) (δ : ℚ) (j : Fin 6) :
    ((outlierBuf u k δ).map fun v => v j).sum =
      5 * u j + Function.update u k (u k + δ) j := by
  unfold outlierBuf
  rw [List.map_append, List.sum_append, List.map_replicate, List.sum_replicate]
  simp

/-- The buffer mean on the offset dimension is `u k + δ/6`. -/
theorem outlierBuf_mean_k (u : Vec6) (k : Fin 6) (δ : ℚ) :
    dimMean (outlierBuf u k δ) k = u k + δ / 6 := by
  unfold dimMean
  rw [outlierBuf_sum, outlierBuf_last_apply, if_pos rfl]
  rw [show (outlierBuf u k δ).length = 6 from by simp [outlierBuf]]
  push_cast
  ring

/-- The buffer mean on every other dimension is `u j`. -/
theorem outlierBuf_mean_ne (u : Vec6) (k : Fin 6) (δ : ℚ) (j : Fin 6) (hj : j ≠ k) :
    dimMean (outlierBuf u k δ) j = u j := by
  unfold dimMean
  rw [outlierBuf_sum, outlierBuf_last_apply, if_neg hj]
  rw [show (outlierBuf u k δ).length = 6 from by simp [outlierBuf]]
  push_cast
  ring

/-- The buffer variance on the offset dimension is `5δ²/36`. -/
theorem outlierBuf_var_k (u : Vec6) (k : Fin 6) (δ : ℚ) :
    dimVar (outlierBuf u k δ) k = 5 * δ ^ 2 / 36 := by
  unfold dimVar
  rw [outlierBuf_mean_k]
  rw [show (outlierBuf u k δ).length = 6 from by simp [outlierBuf]]
  unfold outlierBuf
  rw [List.map_append, List.sum_append, List.map_replicate, List.sum_replicate]
  simp only [List.map_cons, List.map_nil, List.sum_cons, List.sum_nil,
    Function.update_same]
  push_cast
  ring

/-- The buffer variance on every other dimension is `0`. -/
theorem outlierBuf_var_ne (u : Vec6) (k : Fin 6) (δ : ℚ) (j : Fin 6) (hj : j ≠ k) :
    dimVar (outlierBuf u k δ) j = 0 := by
  unfold dimVar
  rw [outlierBuf_mean_ne u k δ j hj]
  unfold outlierBuf
  rw [List.map_append, List.sum_append, List.map_replicate, List.sum_replicate]
  simp only [List.map_cons, List.map_nil, List.sum_cons, List.sum_nil,
    outlierBuf_last_apply, if_neg hj]
  simp

/-- The agreeing vectors pass the keep test. -/
theorem outlierBuf_keeps_base (u : Vec6) (k : Fin 6) (δ : ℚ)
    (hδ : 1 / 1000000 ≤ |δ|) :
    scoreLtTwo (outlierBuf u k δ) u = true := by
  have ht : (0 : ℚ) < |δ| := lt_of_lt_of_le (by norm_num) hδ
  simp only [scoreLtTwo, decide_eq_true_eq]
  intro j
  by_cases hj : j = k
  · subst hj
    right
    rw [outlierBuf_mean_k, outlierBuf_var_k]
    rw [show u j - (u j + δ / 6) = -(δ / 6) by ring, abs_neg,
      show |δ / 6| = |δ| / 6 by rw [abs_div]; norm_num]
    simp only [eps]
    nlinarith [ht, hδ, sq_abs δ, mul_le_mul hδ hδ (by norm_num) (abs_nonneg δ)]
  · left
    rw [outlierBuf_mean_ne u k δ j hj, sub_self, abs_zero]
    norm_num [eps]

/-- The offset vector fails the keep test. -/
theorem outlierBuf_drops_outlier (u : Vec6) (k : Fin 6) (δ : ℚ)
    (hδ : 1 / 1000000 ≤ |δ|) :
    scoreLtTwo (outlierBuf u k δ) (Function.update u k (u k + δ)) = false := by
  have ht : (0 : ℚ) < |δ| := lt_of_lt_of_le (by norm_num) hδ
  simp only [scoreLtTwo, decide_eq_false_iff_not]
  intro hall
  have hk := hall k
  rw [Function.update_same, outlierBuf_mean_k, outlierBuf_var_k,
    show u k + δ - (u k + δ / 6) = 5 * δ / 6 by ring,
    show |5 * δ / 6| = 5 * |δ| / 6 by rw [abs_div, abs_mul]; norm_num] at hk
  simp only [eps] at hk
  rcases hk with hk | hk
  · linarith
  · nlinarith [ht, hδ, sq_abs δ,
      mul_le_mul_of_nonneg_left hδ (le_of_lt ht)]

/-- C5: for a 6-vector buffer in which five vectors agree on every dimension
and one is offset on a single dimension (by any amount of at least `10⁻⁶`,
which covers the spec's ten-standard-deviation scenario), the aggregator
retains exactly the five agreeing vectors, excludes the offset vector as an
outlier, and returns the agreeing value. -/
theorem aggregate_single_outlier (u : Vec6) (k : Fin 6) (δ : ℚ)
    (hδ : 1 / 1000000 ≤ |δ|) :
    (outlierBuf u k δ).filter (scoreLtTwo (outlierBuf u k δ)) =
      List.replicate 5 u ∧
    aggregate (outlierBuf u k δ) = some u := by
  have hfilter0 : ∀ p : Vec6 → Bool, p u = true →
      p (Function.update u k (u k + δ)) = false →
      (outlierBuf u k δ).filter p = List.replicate 5 u := by
    intro p hpu hpw
    unfold outlierBuf
    rw [List.filter_append, List.filter_replicate, if_pos hpu]
    simp [hpw]
  have hfilter : (outlierBuf u k δ).filter (scoreLtTwo (outlierBuf u k δ)) =
      List.replicate 5 u :=
    hfilter0 _ (outlierBuf_keeps_base u k δ hδ) (outlierBuf_drops_outlier u k δ hδ)
  refine ⟨hfilter, ?_⟩
  unfold aggregate
  rw [if_pos (by simp [outlierBuf]), hfilter]
  rw [if_pos (by simp)]
  congr 1
  funext j
  rw [List.map_replicate, List.sum_replicate]
  simp

/-- C5 (witness): five zero vectors and one offset by 6 on dimension 0
aggregate to the zero vector. -/
theorem aggregate_single_outlier_witness :
    1 / 1000000 ≤ |(6 : ℚ)| ∧
    aggregate (outlierBuf (fun _ => 0) 0 6) = some (fun _ => 0) :=
  ⟨by norm_num, (aggregate_single_outlier (fun _ => 0) 0 6 (by norm_num)).2⟩

/-- Squared norms are nonnegative. -/
theorem sqNorm2_nonneg (a : ℚ × ℚ) : 0 ≤ sqNorm2 a := by
  unfold sqNorm2
  positivity

/-- The source's `eye_width < 1` test is equivalent to the squared-norm test
used in `normalise_iris`. -/
theorem norm2_lt_one_iff (a : ℚ × ℚ) : norm2 a < 1 ↔ sqNorm2 a < 1 := by
  unfold norm2
  rw [show (1 : ℝ) = Real.sqrt 1 from Real.sqrt_one.symm,
    Real.sqrt_lt_sqrt_iff (by exact_mod_cast sqNorm2_nonneg a)]
  exact_mod_cast Iff.rfl

/-- C8: whenever both eye extents are at least one pixel, the normalised iris
position lies in `[0,1] × [0,1]`; whenever the eye width is below one pixel,
the result is exactly `(0.5, 0.5)` regardless of the other inputs. -/
theorem normalise_iris_spec (iris eL eR eT eB : ℚ × ℚ) :
    ((1 : ℝ) ≤ norm2 (sub2 eR eL) → (1 : ℝ) ≤ norm2 (sub2 eB eT) →
      0 ≤ (normalise_iris iris eL eR eT eB).1 ∧
      (normalise_iris iris eL eR eT eB).1 ≤ 1 ∧
      0 ≤ (normalise_iris iris eL eR eT eB).2 ∧
      (normalise_iris iris eL eR eT eB).2 ≤ 1) ∧
    (norm2 (sub2 eR eL) < 1 →
      normalise_iris iris eL eR eT eB = (1 / 2, 1 / 2)) := by
  constructor
  · intro hw hh
    have hw1 : (1 : ℚ) ≤ sqNorm2 (sub2 eR eL) := by
      have := (Real.one_le_sqrt).mp hw
      exact_mod_cast this
    have hh1 : (1 : ℚ) ≤ sqNorm2 (sub2 eB eT) := by
      have := (Real.one_le_sqrt).mp hh
      exact_mod_cast this
    unfold normalise_iris
    rw [if_neg (not_or.mpr ⟨not_lt.mpr hw1, not_lt.mpr hh1⟩)]
    refine ⟨?_, ?_, ?_, ?_⟩
    · exact le_min (le_max_right _ _) (by norm_num)
    · exact min_le_right _ _
    · exact le_min (le_max_right _ _) (by norm_num)
    · exact min_le_right _ _
  · intro hw
    have hw1 : sqNorm2 (sub2 eR eL) < 1 := (norm2_lt_one_iff _).mp hw
    unfold normalise_iris
    rw [if_pos (Or.inl hw1)]

/-- C8 (witness): a 2-pixel-wide, 2-pixel-tall eye keeps the output in the
unit box; a half-pixel-wide eye yields exactly `(1/2, 1/2)`. -/
theorem normalise_iris_spec_witness :
    (0 ≤ (normalise_iris (5, 5) (0, 0) (2, 0) (0, 0) (0, 2)).1 ∧
      (normalise_iris (5, 5) (0, 0) (2, 0) (0, 0) (0, 2)).1 ≤ 1 ∧
      0 ≤ (normalise_iris (5, 5) (0, 0) (2, 0) (0, 0) (0, 2)).2 ∧
      (normalise_iris (5, 5) (0, 0) (2, 0) (0, 0) (0, 2)).2 ≤ 1) ∧
    normalise_iris (5, 5) (0, 0) (1 / 2, 0) (0, 0) (0, 2) = (1 / 2, 1 / 2) :=
  ⟨(normalise_iris_spec (5, 5) (0, 0) (2, 0) (0, 0) (0, 2)).1
      ((Real.one_le_sqrt).mpr (by norm_num [sqNorm2, sub2]))
      ((Real.one_le_sqrt).mpr (by norm_num [sqNorm2, sub2])),
   (normalise_iris_spec (5, 5) (0, 0) (1 / 2, 0) (0, 0) (0, 2)).2
      ((norm2_lt_one_iff _).mpr (by norm_num [sqNorm2, sub2]))⟩

/-- C9: a session that ends with fewer than 10 retained samples takes the
failure path without invoking training: the estimator state (in particular
`model_x` and `model_y`) is exactly what it was before, and the failure
outcome reporting the retained count is shown. -/
theorem failed_session_preserves_model (st : EstState) (feats : List Vec6)
    (pts : List (ℚ × ℚ)) (env : TrainEnv) (predf : Vec6 → ℚ × ℚ)
    (hlt : feats.length < 10) :
    finishCalibration st feats pts env predf =
      (st, Except.ok (SessionOutcome.failure feats.length)) ∧
    (finishCalibration st feats pts env predf).1.modelX = st.modelX ∧
    (finishCalibration st feats pts env predf).1.modelY = st.modelY := by
  have h : finishCalibration st feats pts env predf =
      (st, Except.ok (SessionOutcome.failure feats.length)) := by
    unfold finishCalibration
    rw [if_pos hlt]
  exact ⟨h, by rw [h], by rw [h]⟩

/-- C9 (witness): with 9 retained samples, a previously trained model is left
in place. -/
theorem failed_session_preserves_model_witness :
    finishCalibration
        ⟨some (AxisModel.fitted Family.ridge [] []),
         some (AxisModel.fitted Family.ridge [] [])⟩
        (List.replicate 9 (fun _ => 0)) ([] : List (ℚ × ℚ))
        (TrainEnv.mk 0 0 false false false false [] []) (fun _ => (0, 0)) =
      (⟨some (AxisModel.fitted Family.ridge [] []),
        some (AxisModel.fitted Family.ridge [] [])⟩,
       Except.ok (SessionOutcome.failure 9)) :=
  (failed_session_preserves_model
      ⟨some (AxisModel.fitted Family.ridge [] []),
       some (AxisModel.fitted Family.ridge [] [])⟩
      (List.replicate 9 (fun _ => 0)) ([] : List (ℚ × ℚ))
      (TrainEnv.mk 0 0 false false false false [] []) (fun _ => (0, 0))
      (by simp)).1

/-- C6: a session with exactly 9 retained samples produces the failure
outcome (reporting the count) without training; one with exactly 10 proceeds
to training and, when no unguarded sklearn call raises, produces the success
outcome; and in general the failure outcome is produced iff fewer than 10
samples were retained. -/
theorem session_end_threshold (st : EstState) (feats : List Vec6)
    (pts : List (ℚ × ℚ)) (env : TrainEnv) (predf : Vec6 → ℚ × ℚ) :
    (feats.length = 9 →
      finishCalibration st feats pts env predf =
        (st, Except.ok (SessionOutcome.failure 9))) ∧
    (feats.length = 10 → env.ridgeCvRaises = false → env.fitXRaises = false →
      env.fitYRaises = false →
      ∃ rps, finishCalibration st feats pts env predf =
        (⟨some (AxisModel.fitted (selectFamily 10 env) feats (pts.map Prod.fst)),
          some (AxisModel.fitted (selectFamily 10 env) feats (pts.map Prod.snd))⟩,
         Except.ok (SessionOutcome.success rps))) ∧
    ((∃ c, (finishCalibration st feats pts env predf).2 =
        Except.ok (SessionOutcome.failure c)) ↔ feats.length < 10) := by
  refine ⟨?_, ?_, ?_, ?_⟩
  · intro h9
    unfold finishCalibration
    rw [if_pos (by omega), h9]
  · intro hlen hr hx hy
    have htm : train_model st feats (pts.map Prod.fst) (pts.map Prod.snd) env =
        (⟨some (AxisModel.fitted (selectFamily 10 env) feats (pts.map Prod.fst)),
          some (AxisModel.fitted (selectFamily 10 env) feats (pts.map Prod.snd))⟩,
         Except.ok (mae env.predsX (pts.map Prod.fst) 10,
                    mae env.predsY (pts.map Prod.snd) 10)) := by
      simp [train_model, hr, hx, hy, hlen]
    unfold finishCalibration
    rw [if_neg (by omega), htm]
    exact ⟨_, rfl⟩
  · rintro ⟨c, hc⟩
    by_contra h10
    push_neg at h10
    unfold finishCalibration at hc
    rw [if_neg (by omega)] at hc
    rcases h' : train_model st feats (pts.map Prod.fst) (pts.map Prod.snd) env
      with ⟨st1, res⟩
    rw [h'] at hc
    cases res with
    | error e =>
      cases e
      simp at hc
    | ok q =>
      simp at hc
  · intro h10
    refine ⟨feats.length, ?_⟩
    unfold finishCalibration
    rw [if_pos h10]

/-- C6 (witness): 9 retained samples fail; 10 train and succeed. -/
theorem session_end_threshold_witness :
    finishCalibration ⟨none, none⟩ (List.replicate 9 (fun _ => 0))
        ([] : List (ℚ × ℚ)) (TrainEnv.mk 0 0 false false false false [] [])
        (fun _ => (0, 0)) =
      (⟨none, none⟩, Except.ok (SessionOutcome.failure 9)) ∧
    ∃ rps, finishCalibration ⟨none, none⟩ (List.replicate 10 (fun _ => 0))
        ([] : List (ℚ × ℚ)) (TrainEnv.mk 0 0 false false false false [] [])
        (fun _ => (0, 0)) =
      (⟨some (AxisModel.fitted
            (selectFamily 10 (TrainEnv.mk 0 0 false false false false [] []))
            (List.replicate 10 (fun _ => 0)) (([] : List (ℚ × ℚ)).map Prod.fst)),
        some (AxisModel.fitted
            (selectFamily 10 (TrainEnv.mk 0 0 false false false false [] []))
            (List.replicate 10 (fun _ => 0)) (([] : List (ℚ × ℚ)).map Prod.snd))⟩,
       Except.ok (SessionOutcome.success rps)) :=
  ⟨(session_end_threshold ⟨none, none⟩ (List.replicate 9 (fun _ => 0))
      ([] : List (ℚ × ℚ)) (TrainEnv.mk 0 0 false false false false [] [])
      (fun _ => (0, 0))).1 (by simp),
   (session_end_threshold ⟨none, none⟩ (List.replicate 10 (fun _ => 0))
      ([] : List (ℚ × ℚ)) (TrainEnv.mk 0 0 false false false false [] [])
      (fun _ => (0, 0))).2.1 (by simp) rfl rfl rfl⟩

end Mdc
